import Mathlib

/-
Verification of the wedogo/email message construction library
(src/message.go), shallowly embedded over byte lists.

Strings of the Go source are modelled as lists of byte values
(`List Nat`, each element a byte < 256).  Go map iteration order is
unspecified; `textproto.MIMEHeader` is modelled as an association list in
insertion order, which is one admissible iteration order.
-/

namespace WedogoEmail

/-- A Go string / byte slice: a list of byte values. -/
abbrev Str := List Nat

/-- ASCII bytes of a Lean string literal (used only for ASCII text). -/
def asc (s : String) : Str := s.toList.map (fun c => c.toNat)

/-- The protocol line terminator, `lineEnd = "\r\n"` in the source. -/
def crlf : Str := [13, 10]

/-- `lineShouldLength` of the source. -/
def lineShouldLength : Nat := 78

/-- `lineMaxLength` of the source. -/
def lineMaxLength : Nat := 998

/-- The fidelity mode, `Mode` in the source (`Mode7Bit`, `Mode8Bit`,
`ModeBinary`). -/
inductive Mode where
  | mode7Bit
  | mode8Bit
  | modeBinary
deriving DecidableEq, Repr

/-- `validHeaderFieldByte` of net/textproto: the byte set allowed in a
header field name (token bytes of RFC 7230). -/
def validHeaderFieldByte (b : Nat) : Bool :=
  (48 ≤ b && b ≤ 57) ||        -- digits
  (65 ≤ b && b ≤ 90) ||        -- A-Z
  (97 ≤ b && b ≤ 122) ||       -- a-z
  b == 33 || b == 35 || b == 36 || b == 37 || b == 38 || b == 39 ||
  b == 42 || b == 43 || b == 45 || b == 46 || b == 94 || b == 95 ||
  b == 96 || b == 124 || b == 126

/-- One byte of the canonicalization loop of
`textproto.CanonicalMIMEHeaderKey`: uppercase at a word start, lowercase
otherwise. -/
def canonByte (upper : Bool) (b : Nat) : Nat :=
  if upper then (if 97 ≤ b && b ≤ 122 then b - 32 else b)
  else (if 65 ≤ b && b ≤ 90 then b + 32 else b)

/-- The canonicalization loop of `textproto.CanonicalMIMEHeaderKey`:
each byte is upper/lowercased, a byte is uppercased exactly when it
follows a hyphen or starts the key. -/
def canonLoop (upper : Bool) : Str → Str
  | [] => []
  | b :: rest =>
    let b' := canonByte upper b
    b' :: canonLoop (b' == 45) rest

/-- `textproto.CanonicalMIMEHeaderKey`: canonicalizes a header key, or
returns it unchanged when it contains an invalid header field byte. -/
def canonicalMIMEHeaderKey (key : Str) : Str :=
  if key.all validHeaderFieldByte then canonLoop true key else key

/-- Uppercase hex digit of a value below 16, as in `fmt.Fprintf "%02X"`. -/
def hexDigit (n : Nat) : Nat := if n < 10 then 48 + n else 55 + n

/-- The encoding of a single byte inside a q-encoded word, from the
switch of `escapeWord`: space becomes underscore, printable bytes other
than `=`, `?`, `_` pass through, and everything else becomes `=XX`. -/
def encByte (b : Nat) : Str :=
  if b = 32 then [95]
  else if 33 ≤ b ∧ b ≤ 126 ∧ b ≠ 61 ∧ b ≠ 63 ∧ b ≠ 95 then [b]
  else [61, hexDigit (b / 16), hexDigit (b % 16)]

/-- The bytes of the encoded-word opener `=?utf-8?q?`. -/
def marker10 : Str := [61, 63, 117, 116, 102, 45, 56, 63, 113, 63]

/-- The bytes of the encoded-word closer `?=`. -/
def close2 : Str := [63, 61]

/-- The byte loop of `escapeWord` in its escaping branch: `result` is the
flushed output so far and `line` the open encoded-word line.  When the
open line is within 5 bytes of the fold threshold it is closed with `?=`
and a line break, and a fresh continuation opener ` =?utf-8?q?` is
started before the byte is appended. -/
def escChunkLoop : List Nat → Str → Str → Str
  | [], result, line => result ++ line ++ close2
  | b :: rest, result, line =>
    let p :=
      if line.length + 5 > lineShouldLength then
        (result ++ line ++ close2 ++ crlf, 32 :: marker10)
      else (result, line)
    escChunkLoop rest p.1 (p.2 ++ encByte b)

/-- `escapeWord` of the source: a word whose bytes are all printable
ASCII passes through unmodified, otherwise it is rewritten as one or
more q-encoded words. -/
def escapeWord (word : Str) : Str :=
  if word.all (fun b => 32 ≤ b && b ≤ 126) then word
  else escChunkLoop word [] marker10

/-- `strings.SplitAfter(value, " ")`: splits after every space, keeping
the separator at the end of the preceding chunk. -/
def splitAfterSpace : Str → List Str
  | [] => [[]]
  | b :: rest =>
    if b = 32 then [32] :: splitAfterSpace rest
    else
      match splitAfterSpace rest with
      | w :: ws => (b :: w) :: ws
      | [] => [[b]]

/-- One word step of the line-assembly loop of `writeEscapeHeader`:
when appending the escaped word would push the line over the fold
threshold the line is flushed and a continuation line with one leading
space is started. -/
def escStep (acc : Str × Str) (w : Str) : Str × Str :=
  let esc := escapeWord w
  if acc.2.length + esc.length > lineShouldLength then
    (acc.1 ++ acc.2 ++ crlf, 32 :: esc)
  else (acc.1, acc.2 ++ esc)

/-- `writeEscapeHeader` of the source: renders one header field as
`Canonical-Key: ` followed by the escaped words of the value, folded at
word boundaries, each emitted line terminated by CRLF. -/
def writeEscapeHeader (key value : Str) : Str :=
  let p := (splitAfterSpace value).foldl escStep
    ([], canonicalMIMEHeaderKey key ++ [58, 32])
  p.1 ++ p.2 ++ crlf

/-- One address step of `writeEscapeAddressHeader`: a comma is appended
for every address after the first, the line is flushed before the
address when it would reach the fold threshold, then a space and the
rendered address are appended. -/
def addrStep (acc : Str × Str × Bool) (s : Str) : Str × Str × Bool :=
  let line := if acc.2.2 then acc.2.1 else acc.2.1 ++ [44]
  if line.length + s.length ≥ lineShouldLength then
    (acc.1 ++ line ++ crlf, 32 :: s, false)
  else (acc.1, line ++ 32 :: s, false)

/-- `writeEscapeAddressHeader` of the source, over the already rendered
address strings (`mail.Address.String()` is an external collaborator):
renders `Canonical-Key:` then the addresses separated by commas, folding
whole addresses onto continuation lines. -/
def writeEscapeAddressHeader (key : Str) (addrs : List Str) : Str :=
  let p := addrs.foldl addrStep ([], canonicalMIMEHeaderKey key ++ [58], true)
  p.1 ++ p.2.1 ++ crlf

/-- `writeBoundary` of the source: a line break followed by the boundary
token, with no leading dashes. -/
def writeBoundary (boundary : Str) : Str := crlf ++ boundary

/-- `generateBoundary` of the source (a stub returning `"boundary"`). -/
def generateBoundary : Str := asc "boundary"

/-- `genenerateMessageId` of the source (a stub returning
`"message id"`; the name keeps the source spelling). -/
def genenerateMessageId : Str := asc "message id"

/-- The content part tree.  The source closes the `MIME` interface with
exactly two implementations: `MIMEPart` (a leaf with a type, disposition,
charset, extra headers and an in-memory content source) and
`MIMEMultipart` (a container with a type, extra headers, a boundary
token and an ordered list of children). -/
inductive MIME where
  | part (type disposition charset : Str) (headers : List (Str × Str))
      (content : Str)
  | multipart (type : Str) (headers : List (Str × Str)) (boundary : Str)
      (parts : List MIME)

mutual

/-- Serialization of a content part, `MIMEPart.WriteTo` and
`MIMEMultipart.WriteTo` of the source.  Returns the written bytes and
the part as left after the call (a multipart caches a generated
boundary).  A leaf writes its `Content-Type` header, a blank line and
the raw content; a multipart writes its `Content-Type` header, a blank
line, a boundary line, then every child followed by a boundary line. -/
def MIME.writeTo : MIME → Mode → Str × MIME
  | .part t d c hs content, _m =>
    (writeEscapeHeader (asc "Content-Type") t ++ crlf ++ content,
     .part t d c hs content)
  | .multipart t hs b parts, m =>
    let b' := if b = [] then generateBoundary else b
    let q := writeToList parts m b'
    (writeEscapeHeader (asc "Content-Type") t ++ crlf
       ++ writeBoundary b' ++ q.1,
     .multipart t hs b' q.2)

/-- The child loop of `MIMEMultipart.WriteTo`: each child is serialized
and followed by a boundary line. -/
def writeToList : List MIME → Mode → Str → Str × List MIME
  | [], _m, _b => ([], [])
  | p :: ps, m, b =>
    let r := p.writeTo m
    let rs := writeToList ps m b
    (r.1 ++ writeBoundary b ++ rs.1, r.2 :: rs.2)

end

/-- A `mail.Address` as consumed by the source: the raw address field
(checked for emptiness) and the rendered form produced by the external
`mail.Address.String()`. -/
structure Address where
  render : Str
  address : Str
deriving DecidableEq, Repr

/-- The `Email` structure of the source.  `date = none` models the zero
`time.Time`; `some d` stores the RFC1123Z rendering of the set date.
`headers = none` models the nil `textproto.MIMEHeader` map; the map is
modelled as an association list in insertion order.  `message = none`
models a nil root part. -/
structure Email where
  fromAddr : Address
  toAddrs : List Address
  cc : List Address
  bcc : List Address
  replyTo : List Address
  date : Option Str
  subject : Str
  messageId : Str
  headers : Option (List (Str × List Str))
  message : Option MIME

/-- The entry loop of `textproto.MIMEHeader.Add` over the association
list model. -/
def mimeAddGo : List (Str × List Str) → Str → Str → List (Str × List Str)
  | [], ck, v => [(ck, [v])]
  | (k, vs) :: rest, ck, v =>
    if k = ck then (k, vs ++ [v]) :: rest else (k, vs) :: mimeAddGo rest ck v

/-- `textproto.MIMEHeader.Add`: canonicalizes the key and appends the
value to the entry of that key (inserting the entry at the end when the
key is new). -/
def mimeAdd (hs : List (Str × List Str)) (key value : Str) :
    List (Str × List Str) :=
  mimeAddGo hs (canonicalMIMEHeaderKey key) value

/-- The errors of the source: `ErrFromRequired` and `ErrNoBody`. -/
inductive EmailErr where
  | fromRequired
  | noBody
deriving DecidableEq, Repr

/-- The rendered header lines of the extra-header loop of
`Email.WriteTo`: every value of every entry gets its own header line. -/
def renderExtraHeaders (hs : List (Str × List Str)) : Str :=
  (hs.map (fun e => (e.2.map (fun v => writeEscapeHeader e.1 v)).flatten)).flatten

/-- An address list header that is only written when the list is
non-empty, as in `Email.WriteTo`. -/
def optAddrHeader (key : Str) (addrs : List Address) : Str :=
  if addrs = [] then [] else writeEscapeAddressHeader key (addrs.map Address.render)

/-- `Email.WriteTo` of the source, as a state transformer: returns the
email as left after the call, the bytes written to the sink, and the
error if any.  An unset date is stamped with the current time (`now` is
its RFC1123Z rendering) and an unset message id is generated before the
sender and body precondition checks; nothing is written to the sink when
a precondition fails.  On success the envelope headers are rendered,
`MIME-Version: 1.0` is added to the persistent extra-header map, and the
root part is serialized. -/
def Email.writeTo (e : Email) (mo : Mode) (now : Str) :
    Email × Str × Option EmailErr :=
  let date := e.date.getD now
  let msgId := if e.messageId = [] then genenerateMessageId else e.messageId
  let e1 := { e with date := some date, messageId := msgId }
  if e1.fromAddr.address = [] then (e1, [], some .fromRequired)
  else
    match e1.message with
    | none => (e1, [], some .noBody)
    | some root =>
      let hs1 := mimeAdd (e1.headers.getD []) (asc "MIME-Version") (asc "1.0")
      let buf :=
        writeEscapeHeader (asc "Date") date
        ++ writeEscapeAddressHeader (asc "From") [e1.fromAddr.render]
        ++ optAddrHeader (asc "To") e1.toAddrs
        ++ optAddrHeader (asc "Cc") e1.cc
        ++ optAddrHeader (asc "Bcc") e1.bcc
        ++ optAddrHeader (asc "Reply-To") e1.replyTo
        ++ writeEscapeHeader (asc "Subject") e1.subject
        ++ writeEscapeHeader (asc "Message-Id") msgId
        ++ renderExtraHeaders hs1
      let r := root.writeTo mo
      ({ e1 with headers := some hs1, message := some r.2 },
       buf ++ r.1, none)

/-- The text part built by `Email.AddTextBody`. -/
def textPart (content : Str) : MIME :=
  .part (asc "text/plain") (asc "inline") (asc "utf-8") [] content

/-- The HTML part built by `Email.AddHTMLBody` (the charset argument of
the source is ignored there; the part always gets charset utf-8). -/
def htmlPart (content : Str) : MIME :=
  .part (asc "text/html") (asc "inline") (asc "utf-8") [] content

/-- `Email.AddTextBody`: an empty root becomes the text part, a
multipart root appends it to the children, a leaf root is wrapped into a
`multipart/alternative` container holding the old leaf then the text
part.  (The default branch of the source, `ErrInvalidMimeTree`, is
unreachable here: the `MIME` interface of the package is closed by its
two implementations.) -/
def Email.addTextBody (e : Email) (content : Str) : Email :=
  let tp := textPart content
  match e.message with
  | none => { e with message := some tp }
  | some (.multipart t hs b parts) =>
    { e with message := some (.multipart t hs b (parts ++ [tp])) }
  | some (.part t d c hs cont) =>
    { e with message := some (.multipart (asc "multipart/alternative") []
        [] [.part t d c hs cont, tp]) }

/-- `Email.AddHTMLBody`: an empty root becomes the HTML part, a
multipart root appends it to the children, a leaf root is wrapped into a
`multipart/alternative` container holding the HTML part then the old
leaf. -/
def Email.addHTMLBody (e : Email) (content : Str) (_charset : Str) : Email :=
  let hp := htmlPart content
  match e.message with
  | none => { e with message := some hp }
  | some (.multipart t hs b parts) =>
    { e with message := some (.multipart t hs b (parts ++ [hp])) }
  | some (.part t d c hs cont) =>
    { e with message := some (.multipart (asc "multipart/alternative") []
        [] [hp, .part t d c hs cont]) }

/-- An email with every field empty (`Email{}` in Go). -/
def emptyEmail : Email :=
  { fromAddr := ⟨[], []⟩, toAddrs := [], cc := [], bcc := [], replyTo := []
    date := none, subject := [], messageId := [], headers := none
    message := none }

/-! ### Analysis definitions

Decoders and observers used to state properties of the serialized
output; these are specifications of the claims, not part of the
source. -/

/-- Value of an uppercase hex digit byte. -/
def hexVal (d : Nat) : Nat := if 48 ≤ d ∧ d ≤ 57 then d - 48 else d - 55

/-- The q-decoding of one encoded-word body, as the round-trip claim
describes it: underscore to space, `=XX` to the byte XX, any other byte
unchanged. -/
def decodeQ : Str → Str
  | [] => []
  | 95 :: rest => 32 :: decodeQ rest
  | 61 :: h :: l :: rest => (16 * hexVal h + hexVal l) :: decodeQ rest
  | b :: rest => b :: decodeQ rest

/-- Whether `pat` is a leading segment of `s`. -/
def startsWithL : Str → Str → Bool
  | [], _ => true
  | _ :: _, [] => false
  | a :: as, b :: bs => a == b && startsWithL as bs

/-- Fuelled scanner collecting the bodies of all encoded words
(`=?utf-8?q?` ... `?=`) of a byte stream.  The third argument is
`some body` while inside an encoded word; the fuel only has to cover the
length of the stream. -/
def extractGo : Nat → Str → Option Str → List Str
  | 0, _, _ => []
  | _ + 1, [], _ => []
  | fuel + 1, b :: rest, none =>
    if startsWithL marker10 (b :: rest) then extractGo fuel (rest.drop 9) (some [])
    else extractGo fuel rest none
  | fuel + 1, b :: rest, some body =>
    if b = 63 ∧ rest.head? = some 61 then body :: extractGo fuel (rest.drop 1) none
    else extractGo fuel rest (some (body ++ [b]))

/-- The scanner at its canonical fuel. -/
def extractFrom (s : Str) (st : Option Str) : List Str :=
  extractGo s.length s st

/-- The bodies of all encoded words of a byte stream, in order. -/
def extractBodies (s : Str) : List Str := extractFrom s none

/-- The q-encoding of a byte sequence: the concatenation of the
per-byte encodings of `escapeWord`. -/
def qEnc (bs : List Nat) : Str := (bs.map encByte).flatten

/-- Split a byte stream at every CRLF; the segments are the lines of the
stream (a stream ending in CRLF yields a final empty segment). -/
def splitCRLF : Str → List Str
  | [] => [[]]
  | 13 :: 10 :: rest => [] :: splitCRLF rest
  | b :: rest =>
    match splitCRLF rest with
    | l :: ls => (b :: l) :: ls
    | [] => [[b]]

/-- Drop every CR and LF byte of a stream. -/
def removeCRLF (s : Str) : Str := s.filter (fun b => !(b == 13 || b == 10))

/-- Concatenation of lines, each terminated by CRLF. -/
def flatLines (ls : List Str) : Str := (ls.map (fun l => l ++ crlf)).flatten

/-- Whether `pat` occurs as a contiguous segment of `s`. -/
def containsSeg (pat : Str) : Str → Bool
  | [] => startsWithL pat []
  | b :: rest => startsWithL pat (b :: rest) || containsSeg pat rest

/-- The comma-joined rendering of an address list with the one leading
space per address that `writeEscapeAddressHeader` emits, ignoring
folding. -/
def joinAddrs : List Str → Str
  | [] => []
  | s :: rest => 32 :: s ++ (rest.map (fun t => 44 :: 32 :: t)).flatten

/-- The MIME type field of a part. -/
def MIME.typeOf : MIME → Str
  | .part t _ _ _ _ => t
  | .multipart t _ _ _ => t

/-- The content of a leaf part (empty for a container). -/
def MIME.contentOf : MIME → Str
  | .part _ _ _ _ c => c
  | .multipart _ _ _ _ => []

/-- The types of the root children of an email: the children types of a
multipart root, the sole type of a leaf root. -/
def childTypes (e : Email) : List Str :=
  match e.message with
  | none => []
  | some (.part t _ _ _ _) => [t]
  | some (.multipart _ _ _ parts) => parts.map MIME.typeOf

/-- The contents of the root children of an email. -/
def childContents (e : Email) : List Str :=
  match e.message with
  | none => []
  | some (.part _ _ _ _ c) => [c]
  | some (.multipart _ _ _ parts) => parts.map MIME.contentOf

/-! ### Concrete inputs used by the claim theorems -/

/-- A two-child multipart container with boundary token `B`. -/
def sampleMultipart : MIME :=
  .multipart (asc "multipart/mixed") [] (asc "B")
    [textPart (asc "x"), textPart (asc "y")]

/-- A text/plain leaf with one extra header and body `Hello`. -/
def samplePart : MIME :=
  .part (asc "text/plain") (asc "inline") (asc "utf-8")
    [(asc "X-Extra", asc "1")] (asc "Hello")

/-- A complete email whose date and message id are pre-set. -/
def sampleEmail : Email :=
  { fromAddr := ⟨asc "<a@x.com>", asc "a@x.com"⟩
    toAddrs := [], cc := [], bcc := [], replyTo := []
    date := some (asc "Mon, 02 Jan 2006 15:04:05 -0700")
    subject := asc "Hi"
    messageId := asc "<id@x>"
    headers := none
    message := some (textPart (asc "Hello")) }

/-- The email obtained from an empty root by inserting a text body `T`
then an HTML body `H`. -/
def sampleTextHtml : Email :=
  (emptyEmail.addTextBody (asc "T")).addHTMLBody (asc "H") (asc "utf-8")

/-! ### Claim theorems -/

set_option maxRecDepth 40000

/-- C1 (code_bug): serializing a multipart container with boundary token
`B` writes no `boundary=` parameter in its Content-Type header, no
`--B` delimiter lines and no closing `--B--` line; every child, the last
included, is followed by a bare `CRLF B` line, contradicting the
specified multipart wire format. -/
theorem multipart_boundary_dashes_missing :
    containsSeg (asc "boundary=") ((sampleMultipart.writeTo Mode.mode7Bit).1) = false ∧
    containsSeg (asc "--") ((sampleMultipart.writeTo Mode.mode7Bit).1) = false ∧
    containsSeg (crlf ++ asc "B") ((sampleMultipart.writeTo Mode.mode7Bit).1) = true ∧
    (sampleMultipart.writeTo Mode.mode7Bit).1 =
      writeEscapeHeader (asc "Content-Type") (asc "multipart/mixed") ++ crlf
        ++ (crlf ++ asc "B")
        ++ ((textPart (asc "x")).writeTo Mode.mode7Bit).1 ++ (crlf ++ asc "B")
        ++ ((textPart (asc "y")).writeTo Mode.mode7Bit).1 ++ (crlf ++ asc "B") := by
  decide

/-- C2 (code_bug): serializing a leaf part writes only its Content-Type
header, a blank line and the raw body.  No Content-Transfer-Encoding
header is written in any Mode, the extra headers of the part are
dropped, and the output is identical across Modes, contradicting the
specified leaf-part header block. -/
theorem leaf_part_headers_missing :
    (samplePart.writeTo Mode.mode7Bit).1 =
      asc "Content-Type: text/plain" ++ crlf ++ crlf ++ asc "Hello" ∧
    (samplePart.writeTo Mode.mode7Bit).1 = (samplePart.writeTo Mode.mode8Bit).1 ∧
    containsSeg (asc "Content-Transfer-Encoding")
      ((samplePart.writeTo Mode.mode7Bit).1) = false ∧
    containsSeg (asc "X-Extra") ((samplePart.writeTo Mode.mode7Bit).1) = false := by
  decide

/-- C3 (counterexample): inserting a text body `T` then an HTML body `H`
into an empty message yields a multipart/alternative root whose children
are ordered [html, text], not [text, html] as claimed; and a further
text-body insertion appends rather than prepends the new text part. -/
theorem insert_order_counterexample :
    childTypes sampleTextHtml = [asc "text/html", asc "text/plain"] ∧
    childTypes sampleTextHtml ≠ [asc "text/plain", asc "text/html"] ∧
    childContents (sampleTextHtml.addTextBody (asc "T2")) =
      [asc "H", asc "T", asc "T2"] ∧
    (childContents (sampleTextHtml.addTextBody (asc "T2"))).head? ≠
      some (asc "T2") := by
  decide

/-- C3 (amended): from an empty root, inserting a text body makes the
root that text leaf; inserting an HTML body next wraps the root into a
multipart/alternative container with children ordered [html, text] (the
new HTML part is placed before the existing part); once the root is a
multipart container, further text-body and HTML-body insertions both
append the new part to the end of the children list. -/
theorem insert_order (t h t2 h2 cs cs2 : Str) :
    (emptyEmail.addTextBody t).message = some (textPart t) ∧
    ((emptyEmail.addTextBody t).addHTMLBody h cs).message =
      some (.multipart (asc "multipart/alternative") [] []
        [htmlPart h, textPart t]) ∧
    (((emptyEmail.addTextBody t).addHTMLBody h cs).addTextBody t2).message =
      some (.multipart (asc "multipart/alternative") [] []
        [htmlPart h, textPart t, textPart t2]) ∧
    ((((emptyEmail.addTextBody t).addHTMLBody h cs).addTextBody t2).addHTMLBody
        h2 cs2).message =
      some (.multipart (asc "multipart/alternative") [] []
        [htmlPart h, textPart t, textPart t2, htmlPart h2]) := by
  refine ⟨rfl, rfl, rfl, rfl⟩

/-- C5 (code_bug): serializing an unchanged email whose Date and
MessageId are pre-set is not idempotent: the first call adds
`MIME-Version: 1.0` to the persistent extra-header map, so the second
call emits the Mime-Version header line twice and the two outputs are
not byte-identical. -/
theorem serialize_twice_not_idempotent :
    ((sampleEmail.writeTo Mode.mode8Bit (asc "now")).1.writeTo Mode.mode8Bit
        (asc "now")).2.1 ≠
      (sampleEmail.writeTo Mode.mode8Bit (asc "now")).2.1 ∧
    containsSeg (asc "Mime-Version: 1.0" ++ crlf ++ asc "Mime-Version: 1.0")
      (((sampleEmail.writeTo Mode.mode8Bit (asc "now")).1.writeTo Mode.mode8Bit
        (asc "now")).2.1) = true ∧
    containsSeg (asc "Mime-Version: 1.0" ++ crlf ++ asc "Mime-Version: 1.0")
      ((sampleEmail.writeTo Mode.mode8Bit (asc "now")).2.1) = false := by
  decide

/-- The children of `writeToList` are serialized identically under any
two modes when each child is. -/
theorem writeToList_congr (ps : List MIME) (m1 m2 : Mode) (b : Str)
    (h : ∀ p ∈ ps, ∀ ma mb : Mode, p.writeTo ma = p.writeTo mb) :
    writeToList ps m1 b = writeToList ps m2 b := by
  induction ps with
  | nil => rfl
  | cons p ps ih =>
    simp only [writeToList]
    rw [h p (by simp) m1 m2, ih (fun q hq => h q (by simp [hq]))]

/-- Part serialization never depends on the Mode argument. -/
theorem mime_mode_irrelevant :
    ∀ (p : MIME) (m1 m2 : Mode), p.writeTo m1 = p.writeTo m2
  | .part t d c hs content, _, _ => rfl
  | .multipart t hs b parts, m1, m2 => by
    have h : ∀ q ∈ parts, ∀ ma mb : Mode, q.writeTo ma = q.writeTo mb := by
      intro q hq ma mb
      exact mime_mode_irrelevant q ma mb
    simp only [MIME.writeTo]
    rw [writeToList_congr parts m1 m2 _ h]
termination_by p => sizeOf p
decreasing_by
  have := List.sizeOf_lt_of_mem hq
  simp only [MIME.multipart.sizeOf_spec]
  omega

/-- C9 (confirmed): the Mode argument does not influence any byte of
top-level serialization (nor the resulting email state), for every
message tree; with `mime_mode_irrelevant` this covers leaf-part,
multipart and top-level serialization. -/
theorem email_mode_irrelevant (e : Email) (m1 m2 : Mode) (now : Str) :
    e.writeTo m1 now = e.writeTo m2 now := by
  simp only [Email.writeTo]
  split
  · rfl
  · split
    · rfl
    · rw [mime_mode_irrelevant _ m1 m2]

/-- C10 (confirmed): when top-level serialization returns an error, the
date has already been stamped (an unset date with the current time) and
an unset message id has already been assigned the generated identifier,
these mutations persist in the returned state, and every other field of
the message is unchanged. -/
theorem email_error_frame (e : Email) (mo : Mode) (now : Str) (err : EmailErr)
    (h : (e.writeTo mo now).2.2 = some err) :
    (e.writeTo mo now).1.date = some (e.date.getD now) ∧
    (e.writeTo mo now).1.messageId =
      (if e.messageId = [] then genenerateMessageId else e.messageId) ∧
    (e.writeTo mo now).1.fromAddr = e.fromAddr ∧
    (e.writeTo mo now).1.toAddrs = e.toAddrs ∧
    (e.writeTo mo now).1.cc = e.cc ∧
    (e.writeTo mo now).1.bcc = e.bcc ∧
    (e.writeTo mo now).1.replyTo = e.replyTo ∧
    (e.writeTo mo now).1.subject = e.subject ∧
    (e.writeTo mo now).1.headers = e.headers ∧
    (e.writeTo mo now).1.message = e.message := by
  simp only [Email.writeTo] at h ⊢
  split at h
  · simp_all
  · split at h
    · simp_all
    · simp at h

/-- Witness for C10 at the empty email, whose serialization fails with
the sender-required error. -/
theorem email_error_frame_witness :
    (emptyEmail.writeTo Mode.mode7Bit (asc "now")).2.2 =
      some EmailErr.fromRequired ∧
    ((emptyEmail.writeTo Mode.mode7Bit (asc "now")).1.date =
      some (emptyEmail.date.getD (asc "now")) ∧
    (emptyEmail.writeTo Mode.mode7Bit (asc "now")).1.messageId =
      (if emptyEmail.messageId = [] then genenerateMessageId
       else emptyEmail.messageId) ∧
    (emptyEmail.writeTo Mode.mode7Bit (asc "now")).1.fromAddr =
      emptyEmail.fromAddr ∧
    (emptyEmail.writeTo Mode.mode7Bit (asc "now")).1.toAddrs =
      emptyEmail.toAddrs ∧
    (emptyEmail.writeTo Mode.mode7Bit (asc "now")).1.cc = emptyEmail.cc ∧
    (emptyEmail.writeTo Mode.mode7Bit (asc "now")).1.bcc = emptyEmail.bcc ∧
    (emptyEmail.writeTo Mode.mode7Bit (asc "now")).1.replyTo =
      emptyEmail.replyTo ∧
    (emptyEmail.writeTo Mode.mode7Bit (asc "now")).1.subject =
      emptyEmail.subject ∧
    (emptyEmail.writeTo Mode.mode7Bit (asc "now")).1.headers =
      emptyEmail.headers ∧
    (emptyEmail.writeTo Mode.mode7Bit (asc "now")).1.message =
      emptyEmail.message) :=
  ⟨by decide, email_error_frame emptyEmail Mode.mode7Bit (asc "now")
    EmailErr.fromRequired (by decide)⟩

/-- C4 (confirmed): top-level serialization fails with the
sender-required error exactly when the sender address is empty; with a
non-empty sender it fails with the body-missing error exactly when no
root part is set; and on any error no bytes are written to the sink. -/
theorem email_precondition (e : Email) (mo : Mode) (now : Str) :
    ((e.writeTo mo now).2.2 = some EmailErr.fromRequired ↔
      e.fromAddr.address = []) ∧
    (e.fromAddr.address ≠ [] →
      ((e.writeTo mo now).2.2 = some EmailErr.noBody ↔ e.message = none)) ∧
    (∀ err, (e.writeTo mo now).2.2 = some err → (e.writeTo mo now).2.1 = []) := by
  simp only [Email.writeTo]
  refine ⟨?_, ?_, ?_⟩
  · split
    · simp_all
    · split <;> simp_all
  · intro hf
    split
    · simp_all
    · split <;> simp_all
  · intro err
    split
    · simp
    · split <;> simp

/-- The spec scenario for C4: a sender but no body. -/
def noBodyEmail : Email := { sampleEmail with message := none }

/-- Witness for C4 at an email with a sender and no body: serialization
fails with the body-missing error and writes nothing. -/
theorem email_precondition_witness :
    ((noBodyEmail.writeTo Mode.mode8Bit (asc "now")).2.2 =
      some EmailErr.noBody ↔ noBodyEmail.message = none) ∧
    (noBodyEmail.writeTo Mode.mode8Bit (asc "now")).2.1 = [] :=
  ⟨(email_precondition noBodyEmail Mode.mode8Bit (asc "now")).2.1 (by decide),
   (email_precondition noBodyEmail Mode.mode8Bit (asc "now")).2.2
     EmailErr.noBody (by decide)⟩


/-! ### Lemmas for the header encoder line structure (C7, C8) -/


theorem canonByte_ne_ctrl (u : Bool) (b x : Nat) (hb : b ≠ x) (hx : x < 32) :
    canonByte u b ≠ x := by
  unfold canonByte
  split <;> split <;> simp_all <;> omega

theorem canonLoop_ne_ctrl : ∀ (u : Bool) (s : Str) (x : Nat), x ∉ s → x < 32 →
    x ∉ canonLoop u s
  | u, [], x, _, _ => by simp [canonLoop]
  | u, b :: rest, x, h, hx => by
    rw [canonLoop]
    intro hm
    rcases List.mem_cons.mp hm with h3 | h3
    · exact canonByte_ne_ctrl u b x
        (by rintro rfl; exact h (List.mem_cons_self _ _)) hx h3.symm
    · exact canonLoop_ne_ctrl _ rest x
        (fun hr => h (List.mem_cons_of_mem b hr)) hx h3

theorem canon_ne_ctrl (key : Str) (x : Nat) (h : x ∉ key) (hx : x < 32) :
    x ∉ canonicalMIMEHeaderKey key := by
  unfold canonicalMIMEHeaderKey
  split
  · exact canonLoop_ne_ctrl true key x h hx
  · exact h

theorem cont_line_shape (s ext : Str) (hs : s.head? ≠ some 32)
    (he : ext = [] ∨ ext.head? = some 44) :
    ((32 :: s) ++ ext).head? = some 32 ∧
    (((32 :: s) ++ ext).drop 1).head? ≠ some 32 := by
  refine ⟨rfl, ?_⟩
  simp only [List.cons_append, List.drop_one, List.tail_cons]
  rcases s with _ | ⟨a, s⟩
  · rcases he with rfl | he
    · simp
    · simp_all
  · simp_all

theorem flatLines_cons_end : ∀ (c : Str) (cs : List Str),
    ∃ t, flatLines (c :: cs) = t ++ crlf
  | c, [] => ⟨c, by simp [flatLines]⟩
  | c, c2 :: cs => by
    obtain ⟨t, ht⟩ := flatLines_cons_end c2 cs
    refine ⟨c ++ crlf ++ t, ?_⟩
    have e : flatLines (c :: c2 :: cs) = c ++ crlf ++ flatLines (c2 :: cs) := by
      simp [flatLines]
    rw [e, ht]
    simp

theorem removeCRLF_append (a b : Str) :
    removeCRLF (a ++ b) = removeCRLF a ++ removeCRLF b := by
  simp [removeCRLF]

theorem removeCRLF_clean (s : Str) (h13 : 13 ∉ s) (h10 : 10 ∉ s) :
    removeCRLF s = s := by
  unfold removeCRLF
  rw [List.filter_eq_self]
  intro a ha
  have h1 : a ≠ 13 := fun h => h13 (h ▸ ha)
  have h2 : a ≠ 10 := fun h => h10 (h ▸ ha)
  simp [h1, h2]

theorem removeCRLF_crlf : removeCRLF crlf = [] := by decide


theorem canonLoop_length (u : Bool) (s : Str) : (canonLoop u s).length = s.length := by
  induction s generalizing u with
  | nil => rfl
  | cons b rest ih => simp [canonLoop, ih]

theorem canon_length (key : Str) :
    (canonicalMIMEHeaderKey key).length = key.length := by
  unfold canonicalMIMEHeaderKey
  split
  · exact canonLoop_length true key
  · rfl

theorem sc_crlf (rest : Str) : splitCRLF (13 :: 10 :: rest) = [] :: splitCRLF rest := by
  simp [splitCRLF]

theorem sc_cons (b : Nat) (rest : Str) (h : b ≠ 13) :
    splitCRLF (b :: rest) = match splitCRLF rest with
      | l :: ls => (b :: l) :: ls
      | [] => [[b]] := by
  rcases rest with _ | ⟨c, rest⟩ <;> simp [splitCRLF, h]

theorem splitCRLF_noCR : ∀ (a : Str), 13 ∉ a → splitCRLF a = [a]
  | [], _ => rfl
  | b :: rest, h => by
    have hb : b ≠ 13 := by rintro rfl; exact h (List.mem_cons_self _ _)
    rw [sc_cons b rest hb,
      splitCRLF_noCR rest (fun hr => h (List.mem_cons_of_mem b hr))]

theorem splitCRLF_append : ∀ (a b : Str), 13 ∉ a →
    splitCRLF (a ++ 13 :: 10 :: b) = a :: splitCRLF b
  | [], b, _ => by simp [sc_crlf]
  | x :: rest, b, h => by
    have hx : x ≠ 13 := by rintro rfl; exact h (List.mem_cons_self _ _)
    rw [List.cons_append, sc_cons x _ hx,
      splitCRLF_append rest b (fun hr => h (List.mem_cons_of_mem x hr))]

theorem splitCRLF_flat (ls : List Str) (rest : Str)
    (h : ∀ l ∈ ls, 13 ∉ l) :
    splitCRLF (flatLines ls ++ rest) = ls ++ splitCRLF rest := by
  induction ls with
  | nil => simp [flatLines]
  | cons l ls ih =>
    have e : flatLines (l :: ls) ++ rest = l ++ 13 :: 10 :: (flatLines ls ++ rest) := by
      simp [flatLines, crlf]
    rw [e, splitCRLF_append _ _ (h l (by simp)), ih (fun x hx => h x (by simp [hx]))]
    simp


theorem flatLines_snoc (ls : List Str) (l : Str) :
    flatLines ls ++ l ++ crlf = flatLines (ls ++ [l]) := by
  simp [flatLines]

theorem escFold_lines : ∀ (words : List Str) (ls : List Str) (line : Str),
    (∀ w ∈ words, (escapeWord w).length ≤ 77 ∧ 13 ∉ escapeWord w) →
    (∀ l ∈ ls, 13 ∉ l ∧ l.length ≤ 78) → 13 ∉ line → line.length ≤ 78 →
    ∃ ls' line', words.foldl escStep (flatLines ls, line) = (flatLines ls', line') ∧
      (∀ l ∈ ls', 13 ∉ l ∧ l.length ≤ 78) ∧ 13 ∉ line' ∧ line'.length ≤ 78
  | [], ls, line, _, hls, hl13, hl78 => ⟨ls, line, rfl, hls, hl13, hl78⟩
  | w :: ws, ls, line, hw, hls, hl13, hl78 => by
    have hww := hw w (by simp)
    have hws : ∀ x ∈ ws, (escapeWord x).length ≤ 77 ∧ 13 ∉ escapeWord x :=
      fun x hx => hw x (by simp [hx])
    rw [List.foldl_cons]
    by_cases hcond : line.length + (escapeWord w).length > lineShouldLength
    · have e1 : escStep (flatLines ls, line) w =
          (flatLines (ls ++ [line]), 32 :: escapeWord w) := by
        simp only [escStep, if_pos hcond]
        rw [flatLines_snoc]
      rw [e1]
      refine escFold_lines ws (ls ++ [line]) (32 :: escapeWord w) hws ?_ ?_ ?_
      · intro l hl
        rcases List.mem_append.mp hl with h | h
        · exact hls l h
        · simp at h
          subst h
          exact ⟨hl13, hl78⟩
      · intro hm
        rcases List.mem_cons.mp hm with h | h
        · omega
        · exact hww.2 h
      · have := hww.1
        simp
        omega
    · have e2 : escStep (flatLines ls, line) w =
          (flatLines ls, line ++ escapeWord w) := by
        simp only [escStep, if_neg hcond]
      rw [e2]
      refine escFold_lines ws ls (line ++ escapeWord w) hws hls ?_ ?_
      · intro hm
        rcases List.mem_append.mp hm with h | h
        · exact hl13 h
        · exact hww.2 h
      · push_neg at hcond
        simpa [lineShouldLength] using hcond

theorem header_lines (key value : Str) :
    (∃ t, writeEscapeHeader key value = t ++ crlf) ∧
    (13 ∉ key → key.length + 2 ≤ 78 →
      (∀ w ∈ splitAfterSpace value,
        (escapeWord w).length ≤ 77 ∧ 13 ∉ escapeWord w) →
      ∀ l ∈ splitCRLF (writeEscapeHeader key value),
        l.length ≤ lineShouldLength ∧ l.length ≤ lineMaxLength) := by
  constructor
  · exact ⟨_, rfl⟩
  · intro hk hklen hws
    have h0 : 13 ∉ canonicalMIMEHeaderKey key ++ [58, 32] := by
      intro hm
      rcases List.mem_append.mp hm with h | h
      · exact canon_ne_ctrl key 13 hk (by omega) h
      · simp at h
    have h0l : (canonicalMIMEHeaderKey key ++ [58, 32]).length ≤ 78 := by
      simp [canon_length]
      omega
    obtain ⟨ls', line', heq, hls', h13', h78'⟩ :=
      escFold_lines (splitAfterSpace value) []
        (canonicalMIMEHeaderKey key ++ [58, 32]) hws (by simp) h0 h0l
    have e2 : writeEscapeHeader key value = flatLines ls' ++ (line' ++ crlf) := by
      rw [writeEscapeHeader]
      have : (splitAfterSpace value).foldl escStep
          ([], canonicalMIMEHeaderKey key ++ [58, 32]) = (flatLines ls', line') := heq
      rw [this]
      simp
    intro l hl
    rw [e2, splitCRLF_flat ls' (line' ++ crlf) (fun x hx => (hls' x hx).1)] at hl
    have e3 : line' ++ crlf = line' ++ 13 :: 10 :: ([] : Str) := rfl
    rw [e3, splitCRLF_append line' [] h13'] at hl
    rcases List.mem_append.mp hl with h | h
    · have := (hls' l h).2
      constructor <;> simp [lineShouldLength, lineMaxLength] <;> omega
    · rcases List.mem_cons.mp h with h2 | h2
      · subst h2
        constructor <;> simp [lineShouldLength, lineMaxLength] <;> omega
      · simp [splitCRLF] at h2
        subst h2
        simp [lineShouldLength, lineMaxLength]

theorem addrFold_master : ∀ (rest : List Str) (line : Str),
    (∀ s ∈ rest, 13 ∉ s ∧ 10 ∉ s ∧ s.head? ≠ some 32) →
    13 ∉ line → 10 ∉ line →
    ∃ ext conts,
      (ext = [] ∨ ext.head? = some 44) ∧
      13 ∉ (line ++ ext) ∧ 10 ∉ (line ++ ext) ∧
      (∀ c ∈ conts, 13 ∉ c ∧ 10 ∉ c ∧ c.head? = some 32 ∧
        ((c.drop 1).head? ≠ some 32)) ∧
      (∀ s ∈ rest, (∃ pre post, line ++ ext = pre ++ s ++ post) ∨
        (∃ c ∈ conts, ∃ pre post, c = pre ++ s ++ post)) ∧
      (removeCRLF ((line ++ ext) ++ crlf ++ flatLines conts) =
        removeCRLF line ++ (rest.map (fun s => 44 :: 32 :: s)).flatten) ∧
      (∀ out, (rest.foldl addrStep (out, line, false)).1 ++
          (rest.foldl addrStep (out, line, false)).2.1 ++ crlf =
        out ++ flatLines ((line ++ ext) :: conts))
  | [], line, _, h13, h10 => by
    refine ⟨[], [], Or.inl rfl, by simp [h13], by simp [h10],
      by simp, by simp, ?_, ?_⟩
    · simp [flatLines, removeCRLF_append, removeCRLF_crlf]
    · intro out
      simp [flatLines]
  | s :: rest, line, hs, h13, h10 => by
    have hss := hs s (by simp)
    have hrest : ∀ x ∈ rest, 13 ∉ x ∧ 10 ∉ x ∧ x.head? ≠ some 32 :=
      fun x hx => hs x (by simp [hx])
    by_cases hcond : (line ++ [44]).length + s.length ≥ lineShouldLength
    · -- the line is flushed before this address
      obtain ⟨ext', conts', hx44, hlx13, hlx10, hconts, hmem, hrc, hfun⟩ :=
        addrFold_master rest (32 :: s) hrest
          (by simp [hss.1]) (by simp [hss.2.1])
      have hc13 : (13 : Nat) ∉ (32 :: s) ++ ext' := hlx13
      have hc10 : (10 : Nat) ∉ (32 :: s) ++ ext' := hlx10
      refine ⟨[44], ((32 :: s) ++ ext') :: conts', Or.inr rfl,
        by simp [h13], by simp [h10], ?_, ?_, ?_, ?_⟩
      · intro c hc
        rcases List.mem_cons.mp hc with rfl | hc
        · have hshape := cont_line_shape s ext' hss.2.2 hx44
          exact ⟨hc13, hc10, hshape.1, hshape.2⟩
        · exact hconts c hc
      · intro x hx
        rcases List.mem_cons.mp hx with rfl | hx
        · exact Or.inr ⟨(32 :: x) ++ ext', by simp, [32], ext', by simp⟩
        · rcases hmem x hx with ⟨pre, post, hp⟩ | ⟨c, hc, pre, post, hp⟩
          · exact Or.inr ⟨(32 :: s) ++ ext', by simp, pre, post, hp⟩
          · exact Or.inr ⟨c, by simp [hc], pre, post, hp⟩
      · have e : flatLines (((32 :: s) ++ ext') :: conts') =
            ((32 :: s) ++ ext') ++ crlf ++ flatLines conts' := by
          simp [flatLines]
        rw [e]
        rw [removeCRLF_append (line ++ [44] ++ crlf)
          (((32 :: s) ++ ext') ++ crlf ++ flatLines conts')]
        rw [removeCRLF_append (line ++ [44]) crlf,
          removeCRLF_append line [44], removeCRLF_crlf, hrc]
        have h44 : removeCRLF [44] = [44] := by decide
        have e2 : removeCRLF (32 :: s) = 32 :: s :=
          removeCRLF_clean _ (by simp [hss.1]) (by simp [hss.2.1])
        rw [h44, e2]
        simp
      · intro out
        have estep : addrStep (out, line, false) s =
            (out ++ (line ++ [44]) ++ crlf, 32 :: s, false) := by
          simp only [addrStep]
          rw [if_pos]
          · rfl
          · simpa using hcond
        rw [List.foldl_cons, estep, hfun (out ++ (line ++ [44]) ++ crlf)]
        have e : flatLines ((line ++ [44]) :: ((32 :: s) ++ ext') :: conts') =
            (line ++ [44]) ++ crlf ++ flatLines (((32 :: s) ++ ext') :: conts') := by
          simp [flatLines]
        rw [e]
        simp
    · -- the address is appended to the open line
      obtain ⟨ext', conts', hx44, hlx13, hlx10, hconts, hmem, hrc, hfun⟩ :=
        addrFold_master rest (line ++ 44 :: 32 :: s) hrest
          (by simp [h13, hss.1]) (by simp [h10, hss.2.1])
      have easc : (line ++ 44 :: 32 :: s) ++ ext' = line ++ (44 :: 32 :: (s ++ ext')) := by
        simp
      refine ⟨44 :: 32 :: (s ++ ext'), conts', Or.inr rfl, ?_, ?_, hconts, ?_, ?_, ?_⟩
      · rw [← easc]; exact hlx13
      · rw [← easc]; exact hlx10
      · intro x hx
        rcases List.mem_cons.mp hx with rfl | hx
        · left
          exact ⟨line ++ [44, 32], ext', by simp⟩
        · rcases hmem x hx with ⟨pre, post, hp⟩ | hr
          · left
            exact ⟨pre, post, by rw [← easc] at *; exact hp⟩
          · exact Or.inr hr
      · rw [← easc, hrc, removeCRLF_append line (44 :: 32 :: s)]
        have e2 : removeCRLF (44 :: 32 :: s) = 44 :: 32 :: s :=
          removeCRLF_clean _ (by simp [hss.1]) (by simp [hss.2.1])
        rw [e2]
        simp
      · intro out
        have estep : addrStep (out, line, false) s =
            (out, line ++ 44 :: 32 :: s, false) := by
          simp only [addrStep]
          rw [if_neg]
          · simp
          · simpa using hcond
        rw [List.foldl_cons, estep, hfun out, ← easc]


theorem address_header (key : Str) (addrs : List Str)
    (hk13 : 13 ∉ key) (hk10 : 10 ∉ key)
    (ha : ∀ s ∈ addrs, 13 ∉ s ∧ 10 ∉ s ∧ s.head? ≠ some 32) :
    (∃ t, writeEscapeAddressHeader key addrs = t ++ crlf) ∧
    (∀ s ∈ addrs, ∃ l ∈ splitCRLF (writeEscapeAddressHeader key addrs),
      ∃ pre post, l = pre ++ s ++ post) ∧
    (∀ l ∈ ((splitCRLF (writeEscapeAddressHeader key addrs)).dropLast).drop 1,
      l.head? = some 32 ∧ (l.drop 1).head? ≠ some 32) ∧
    removeCRLF (writeEscapeAddressHeader key addrs) =
      canonicalMIMEHeaderKey key ++ 58 :: joinAddrs addrs := by
  have hck13 : 13 ∉ canonicalMIMEHeaderKey key := canon_ne_ctrl key 13 hk13 (by omega)
  have hck10 : 10 ∉ canonicalMIMEHeaderKey key := canon_ne_ctrl key 10 hk10 (by omega)
  have hl013 : 13 ∉ canonicalMIMEHeaderKey key ++ [58] := by simp [hck13]
  have hl010 : 10 ∉ canonicalMIMEHeaderKey key ++ [58] := by simp [hck10]
  rcases addrs with _ | ⟨s0, rest⟩
  · have e : writeEscapeAddressHeader key [] =
        (canonicalMIMEHeaderKey key ++ [58]) ++ crlf := rfl
    refine ⟨⟨_, e⟩, by simp, ?_, ?_⟩
    · intro l hl
      rw [e] at hl
      have e2 : (canonicalMIMEHeaderKey key ++ [58]) ++ crlf =
          (canonicalMIMEHeaderKey key ++ [58]) ++ 13 :: 10 :: ([] : Str) := rfl
      rw [e2, splitCRLF_append _ _ hl013] at hl
      simp [splitCRLF] at hl
    · rw [e, removeCRLF_append, removeCRLF_crlf,
        removeCRLF_clean _ hl013 hl010]
      simp [joinAddrs]
  · have hs0 := ha s0 (by simp)
    have hrest : ∀ x ∈ rest, 13 ∉ x ∧ 10 ∉ x ∧ x.head? ≠ some 32 :=
      fun x hx => ha x (by simp [hx])
    by_cases hcond : (canonicalMIMEHeaderKey key ++ [58]).length + s0.length ≥
        lineShouldLength
    · -- the key line is flushed before the first address
      obtain ⟨ext, conts, hx44, hlx13, hlx10, hconts, hmem, hrc, hfun⟩ :=
        addrFold_master rest (32 :: s0) hrest
          (by simp [hs0.1]) (by simp [hs0.2.1])
      have estep : addrStep ([], canonicalMIMEHeaderKey key ++ [58], true) s0 =
          ((canonicalMIMEHeaderKey key ++ [58]) ++ crlf, 32 :: s0, false) := by
        simp only [addrStep]
        rw [if_pos (by simpa using hcond)]
        simp
      have eout : writeEscapeAddressHeader key (s0 :: rest) =
          flatLines ((canonicalMIMEHeaderKey key ++ [58]) ::
            ((32 :: s0) ++ ext) :: conts) := by
        rw [writeEscapeAddressHeader]
        simp only [List.foldl_cons, estep]
        rw [hfun ((canonicalMIMEHeaderKey key ++ [58]) ++ crlf)]
        have e : flatLines ((canonicalMIMEHeaderKey key ++ [58]) ::
            ((32 :: s0) ++ ext) :: conts) =
            (canonicalMIMEHeaderKey key ++ [58]) ++ crlf ++
              flatLines (((32 :: s0) ++ ext) :: conts) := by
          simp [flatLines]
        rw [e]
      have elines : splitCRLF (writeEscapeAddressHeader key (s0 :: rest)) =
          ((canonicalMIMEHeaderKey key ++ [58]) ::
            ((32 :: s0) ++ ext) :: conts) ++ [[]] := by
        rw [eout, ← List.append_nil (flatLines _), splitCRLF_flat]
        · rfl
        · intro x hx
          rcases List.mem_cons.mp hx with rfl | hx
          · exact hl013
          · rcases List.mem_cons.mp hx with rfl | hx
            · exact hlx13
            · exact (hconts x hx).1
      refine ⟨?_, ?_, ?_, ?_⟩
      · rw [eout]
        exact flatLines_cons_end _ _
      · intro x hx
        rw [elines]
        rcases List.mem_cons.mp hx with rfl | hx
        · exact ⟨(32 :: x) ++ ext, by simp, [32], ext, by simp⟩
        · rcases hmem x hx with ⟨pre, post, hp⟩ | ⟨c, hc, pre, post, hp⟩
          · exact ⟨(32 :: s0) ++ ext, by simp, pre, post, hp⟩
          · exact ⟨c, by simp [hc], pre, post, hp⟩
      · intro l hl
        rw [elines] at hl
        rw [List.dropLast_concat] at hl
        simp only [List.drop_one, List.tail_cons] at hl
        rcases List.mem_cons.mp hl with rfl | hl
        · exact cont_line_shape s0 ext hs0.2.2 hx44
        · exact ⟨(hconts l hl).2.2.1, (hconts l hl).2.2.2⟩
      · rw [eout]
        have e4 : flatLines ((canonicalMIMEHeaderKey key ++ [58]) ::
            ((32 :: s0) ++ ext) :: conts) =
            (canonicalMIMEHeaderKey key ++ [58]) ++ crlf ++
              (((32 :: s0) ++ ext) ++ crlf ++ flatLines conts) := by
          simp [flatLines]
        rw [e4, removeCRLF_append ((canonicalMIMEHeaderKey key ++ [58]) ++ crlf) _,
          removeCRLF_append _ crlf, removeCRLF_crlf, hrc,
          removeCRLF_clean _ hl013 hl010,
          removeCRLF_clean _ (by simp [hs0.1]) (by simp [hs0.2.1])]
        simp [joinAddrs]
    · -- the first address joins the key line
      obtain ⟨ext, conts, hx44, hlx13, hlx10, hconts, hmem, hrc, hfun⟩ :=
        addrFold_master rest ((canonicalMIMEHeaderKey key ++ [58]) ++ 32 :: s0)
          hrest (by simp [hck13, hs0.1]) (by simp [hck10, hs0.2.1])
      have estep : addrStep ([], canonicalMIMEHeaderKey key ++ [58], true) s0 =
          ([], (canonicalMIMEHeaderKey key ++ [58]) ++ 32 :: s0, false) := by
        simp only [addrStep]
        rw [if_neg (by simpa using hcond)]
        simp
      have eout : writeEscapeAddressHeader key (s0 :: rest) =
          flatLines ((((canonicalMIMEHeaderKey key ++ [58]) ++ 32 :: s0) ++ ext)
            :: conts) := by
        rw [writeEscapeAddressHeader]
        simp only [List.foldl_cons, estep]
        rw [hfun []]
        rfl
      have elines : splitCRLF (writeEscapeAddressHeader key (s0 :: rest)) =
          ((((canonicalMIMEHeaderKey key ++ [58]) ++ 32 :: s0) ++ ext) :: conts)
            ++ [[]] := by
        rw [eout, ← List.append_nil (flatLines _), splitCRLF_flat]
        · rfl
        · intro x hx
          rcases List.mem_cons.mp hx with rfl | hx
          · exact hlx13
          · exact (hconts x hx).1
      refine ⟨?_, ?_, ?_, ?_⟩
      · rw [eout]
        exact flatLines_cons_end _ _
      · intro x hx
        rw [elines]
        rcases List.mem_cons.mp hx with rfl | hx
        · refine ⟨((canonicalMIMEHeaderKey key ++ [58]) ++ 32 :: x) ++ ext,
            by simp, (canonicalMIMEHeaderKey key ++ [58]) ++ [32], ext, by simp⟩
        · rcases hmem x hx with ⟨pre, post, hp⟩ | ⟨c, hc, pre, post, hp⟩
          · exact ⟨((canonicalMIMEHeaderKey key ++ [58]) ++ 32 :: s0) ++ ext,
              by simp, pre, post, hp⟩
          · exact ⟨c, by simp [hc], pre, post, hp⟩
      · intro l hl
        rw [elines] at hl
        rw [List.dropLast_concat] at hl
        simp only [List.drop_one, List.tail_cons] at hl
        exact ⟨(hconts l hl).2.2.1, (hconts l hl).2.2.2⟩
      · rw [eout]
        have e4 : flatLines ((((canonicalMIMEHeaderKey key ++ [58]) ++ 32 :: s0)
            ++ ext) :: conts) =
            (((canonicalMIMEHeaderKey key ++ [58]) ++ 32 :: s0) ++ ext) ++ crlf
              ++ flatLines conts := by
          simp [flatLines]
        rw [e4, hrc, removeCRLF_append _ (32 :: s0),
          removeCRLF_clean _ hl013 hl010,
          removeCRLF_clean _ (by simp [hs0.1]) (by simp [hs0.2.1])]
        simp [joinAddrs]

/-- C7 (counterexample): a Subject value made of one 100-byte ASCII word
folds onto a continuation line of 101 characters, exceeding the 78
character should-limit; the header encoder never breaks inside a word. -/
theorem header_line_length_counterexample :
    (splitCRLF (writeEscapeHeader (asc "Subject")
      (List.replicate 100 97))).map List.length = [9, 101, 0] ∧
    ¬(101 ≤ lineShouldLength) := by
  decide

/-- Witness for C7 at the Subject header of a short mixed ASCII and
non-ASCII value. -/
theorem header_lines_witness :
    (13 ∉ asc "Subject") ∧
    ((asc "Subject").length + 2 ≤ 78) ∧
    (∀ w ∈ splitAfterSpace [72, 105, 32, 230, 181, 139],
      (escapeWord w).length ≤ 77 ∧ 13 ∉ escapeWord w) ∧
    (∀ l ∈ splitCRLF (writeEscapeHeader (asc "Subject")
        [72, 105, 32, 230, 181, 139]),
      l.length ≤ lineShouldLength ∧ l.length ≤ lineMaxLength) :=
  ⟨by decide, by decide, by decide,
   (header_lines (asc "Subject") [72, 105, 32, 230, 181, 139]).2
     (by decide) (by decide) (by decide)⟩

/-- Witness for C8 at a To header with two rendered addresses. -/
theorem address_header_witness :
    (13 ∉ asc "to") ∧
    (∀ s ∈ [asc "\"A\" <a@x.com>", asc "\"B\" <b@y.org>"],
      13 ∉ s ∧ 10 ∉ s ∧ s.head? ≠ some 32) ∧
    ((∃ t, writeEscapeAddressHeader (asc "to")
        [asc "\"A\" <a@x.com>", asc "\"B\" <b@y.org>"] = t ++ crlf) ∧
    (∀ s ∈ [asc "\"A\" <a@x.com>", asc "\"B\" <b@y.org>"],
      ∃ l ∈ splitCRLF (writeEscapeAddressHeader (asc "to")
        [asc "\"A\" <a@x.com>", asc "\"B\" <b@y.org>"]),
      ∃ pre post, l = pre ++ s ++ post) ∧
    (∀ l ∈ ((splitCRLF (writeEscapeAddressHeader (asc "to")
        [asc "\"A\" <a@x.com>", asc "\"B\" <b@y.org>"])).dropLast).drop 1,
      l.head? = some 32 ∧ (l.drop 1).head? ≠ some 32) ∧
    removeCRLF (writeEscapeAddressHeader (asc "to")
        [asc "\"A\" <a@x.com>", asc "\"B\" <b@y.org>"]) =
      canonicalMIMEHeaderKey (asc "to") ++ 58 :: joinAddrs
        [asc "\"A\" <a@x.com>", asc "\"B\" <b@y.org>"]) :=
  ⟨by decide, by decide,
   address_header (asc "to") [asc "\"A\" <a@x.com>", asc "\"B\" <b@y.org>"]
     (by decide) (by decide) (by decide)⟩


/-! ### Lemmas for the encoded-word round trip (C6) -/

theorem swl_self (p r : Str) : startsWithL p (p ++ r) = true := by
  induction p with
  | nil => simp [startsWithL]
  | cons a as ih => simp [startsWithL, ih]

theorem extractGo_fuel : ∀ (fuel : Nat) (s : Str) (st : Option Str),
    s.length ≤ fuel → extractGo fuel s st = extractGo s.length s st
  | 0, s, st, h => by
    have : s = [] := List.length_eq_zero.mp (Nat.le_zero.mp h)
    subst this
    rfl
  | fuel + 1, [], st, _ => by
    cases st <;> rfl
  | fuel + 1, b :: rest, st, h => by
    have hf : rest.length ≤ fuel := by simpa using h
    have h9f : (rest.drop 9).length ≤ fuel :=
      le_trans (by simp [List.length_drop]) hf
    have h9l : (rest.drop 9).length ≤ rest.length := by
      simp [List.length_drop]
    have h1f : (rest.drop 1).length ≤ fuel :=
      le_trans (by simp [List.length_drop]) hf
    have h1l : (rest.drop 1).length ≤ rest.length := by
      simp [List.length_drop]
    show extractGo (fuel + 1) (b :: rest) st =
      extractGo (rest.length + 1) (b :: rest) st
    cases st with
    | none =>
      simp only [extractGo]
      split
      · rw [extractGo_fuel fuel _ _ h9f, extractGo_fuel rest.length _ _ h9l]
      · rw [extractGo_fuel fuel _ _ hf,
          extractGo_fuel rest.length _ _ (Nat.le_refl _)]
    | some body =>
      simp only [extractGo]
      split
      · rw [extractGo_fuel fuel _ _ h1f, extractGo_fuel rest.length _ _ h1l]
      · rw [extractGo_fuel fuel _ _ hf,
          extractGo_fuel rest.length _ _ (Nat.le_refl _)]
termination_by fuel => fuel

theorem extractFrom_cons_none (b : Nat) (rest : Str) :
    extractFrom (b :: rest) none =
      (if startsWithL marker10 (b :: rest) then
        extractFrom (rest.drop 9) (some []) else extractFrom rest none) := by
  unfold extractFrom
  show extractGo (rest.length + 1) (b :: rest) none = _
  simp only [extractGo]
  split
  · rw [extractGo_fuel rest.length _ _ (by simp [List.length_drop])]
  · rfl

theorem extractFrom_cons_some (b : Nat) (rest : Str) (acc : Str) :
    extractFrom (b :: rest) (some acc) =
      (if b = 63 ∧ rest.head? = some 61 then
        acc :: extractFrom (rest.drop 1) none
       else extractFrom rest (some (acc ++ [b]))) := by
  unfold extractFrom
  show extractGo (rest.length + 1) (b :: rest) (some acc) = _
  simp only [extractGo]
  split
  · rw [extractGo_fuel rest.length _ _ (by simp [List.length_drop])]
  · rfl

theorem ef_marker (rest : Str) :
    extractFrom (marker10 ++ rest) none = extractFrom rest (some []) := by
  rw [show marker10 ++ rest =
    61 :: ([63, 117, 116, 102, 45, 56, 63, 113, 63] ++ rest) from by
      simp [marker10]]
  rw [extractFrom_cons_none]
  rw [if_pos]
  · rfl
  · have := swl_self marker10 rest
    simpa [marker10] using this

theorem ef_skip (b : Nat) (rest : Str)
    (h : startsWithL marker10 (b :: rest) = false) :
    extractFrom (b :: rest) none = extractFrom rest none := by
  rw [extractFrom_cons_none, h]
  simp

theorem ef_body (b : Nat) (rest : Str) (acc : Str)
    (h : ¬(b = 63 ∧ rest.head? = some 61)) :
    extractFrom (b :: rest) (some acc) = extractFrom rest (some (acc ++ [b])) := by
  rw [extractFrom_cons_some, if_neg h]

theorem ef_close (rest : Str) (acc : Str) :
    extractFrom (63 :: 61 :: rest) (some acc) = acc :: extractFrom rest none := by
  rw [extractFrom_cons_some, if_pos ⟨rfl, rfl⟩]
  rfl


theorem hexDigit_no63 (x : Nat) : hexDigit x ≠ 63 := by
  unfold hexDigit
  split <;> omega

theorem encByte_no63 (b : Nat) : 63 ∉ encByte b := by
  unfold encByte
  by_cases h1 : b = 32
  · simp [h1]
  · rw [if_neg h1]
    by_cases h2 : 33 ≤ b ∧ b ≤ 126 ∧ b ≠ 61 ∧ b ≠ 63 ∧ b ≠ 95
    · rw [if_pos h2]
      intro hm
      simp at hm
      exact h2.2.2.2.1 hm.symm
    · rw [if_neg h2]
      intro hm
      rcases List.mem_cons.mp hm with h | hm2
      · omega
      rcases List.mem_cons.mp hm2 with h | hm3
      · exact hexDigit_no63 _ h.symm
      rcases List.mem_cons.mp hm3 with h | hm4
      · exact hexDigit_no63 _ h.symm
      · simp at hm4

theorem qEnc_no63 (bs : List Nat) : 63 ∉ qEnc bs := by
  induction bs with
  | nil => simp [qEnc]
  | cons b rest ih =>
    simp only [qEnc, List.map_cons, List.flatten_cons]
    intro hm
    rcases List.mem_append.mp hm with h | h
    · exact encByte_no63 b h
    · exact ih h

theorem qEnc_snoc (bs : List Nat) (b : Nat) :
    qEnc (bs ++ [b]) = qEnc bs ++ encByte b := by
  simp [qEnc]

theorem ef_bodyRun : ∀ (body : Str) (rest : Str) (acc : Str), 63 ∉ body →
    extractFrom (body ++ rest) (some acc) = extractFrom rest (some (acc ++ body))
  | [], rest, acc, _ => by simp
  | b :: body, rest, acc, h => by
    have hb : b ≠ 63 := by rintro rfl; exact h (List.mem_cons_self _ _)
    rw [List.cons_append, ef_body b _ acc (by simp [hb]),
      ef_bodyRun body rest (acc ++ [b]) (fun hm => h (List.mem_cons_of_mem b hm))]
    simp

theorem hexVal_hexDigit (x : Nat) (h : x < 16) : hexVal (hexDigit x) = x := by
  unfold hexVal hexDigit
  split <;> split <;> omega

theorem dq_95 (rest : Str) : decodeQ (95 :: rest) = 32 :: decodeQ rest := by
  rcases rest with _ | ⟨c, rest⟩
  · rfl
  · rcases rest with _ | ⟨d, rest⟩ <;> rfl

theorem dq_61 (h l : Nat) (rest : Str) :
    decodeQ (61 :: h :: l :: rest) = (16 * hexVal h + hexVal l) :: decodeQ rest := by
  rfl

theorem dq_default (b : Nat) (rest : Str) (h1 : b ≠ 95) (h2 : b ≠ 61) :
    decodeQ (b :: rest) = b :: decodeQ rest := by
  rcases rest with _ | ⟨c, rest⟩
  · simp [decodeQ, h1, h2]
  · rcases rest with _ | ⟨d, rest⟩ <;> simp [decodeQ, h1, h2]

theorem decodeE : ∀ (bs : List Nat), (∀ b ∈ bs, b < 256) →
    decodeQ (qEnc bs) = bs
  | [], _ => rfl
  | b :: bs, h => by
    have hb : b < 256 := h b (by simp)
    have hrest : ∀ x ∈ bs, x < 256 := fun x hx => h x (by simp [hx])
    have e : qEnc (b :: bs) = encByte b ++ qEnc bs := by simp [qEnc]
    rw [e]
    unfold encByte
    by_cases h1 : b = 32
    · rw [if_pos h1, List.cons_append, List.nil_append, dq_95,
        decodeE bs hrest, h1]
    · rw [if_neg h1]
      by_cases h2 : 33 ≤ b ∧ b ≤ 126 ∧ b ≠ 61 ∧ b ≠ 63 ∧ b ≠ 95
      · rw [if_pos h2, List.cons_append, List.nil_append,
          dq_default b _ h2.2.2.2.2 h2.2.2.1, decodeE bs hrest]
      · rw [if_neg h2]
        rw [show ([61, hexDigit (b / 16), hexDigit (b % 16)] : Str) ++ qEnc bs =
          61 :: hexDigit (b / 16) :: hexDigit (b % 16) :: qEnc bs from by simp]
        rw [dq_61, decodeE bs hrest,
          hexVal_hexDigit _ (by omega), hexVal_hexDigit _ (by omega)]
        congr 1
        omega


theorem escChunkLoop_flat : ∀ (rest : List Nat) (result line : Str),
    escChunkLoop rest result line = result ++ escChunkLoop rest [] line
  | [], result, line => by simp [escChunkLoop]
  | b :: rest, result, line => by
    simp only [escChunkLoop]
    by_cases hc : line.length + 5 > lineShouldLength
    · simp only [if_pos hc]
      rw [escChunkLoop_flat rest (result ++ line ++ close2 ++ crlf) _,
        escChunkLoop_flat rest ([] ++ line ++ close2 ++ crlf) _]
      simp
    · simp only [if_neg hc]
      rw [escChunkLoop_flat rest result _, escChunkLoop_flat rest [] _]

theorem ef_skip13 (rest : Str) :
    extractFrom (13 :: rest) none = extractFrom rest none := by
  apply ef_skip
  simp [startsWithL, marker10]

theorem ef_skip10 (rest : Str) :
    extractFrom (10 :: rest) none = extractFrom rest none := by
  apply ef_skip
  simp [startsWithL, marker10]

theorem ef_skip32 (rest : Str) :
    extractFrom (32 :: rest) none = extractFrom rest none := by
  apply ef_skip
  simp [startsWithL, marker10]

theorem ef_encodedWord (pre : Str) (hpre : pre = [] ∨ pre = [32])
    (body tail : Str) (hb : 63 ∉ body) :
    extractFrom ((pre ++ marker10) ++ (body ++ (63 :: 61 :: tail))) none =
      body :: extractFrom tail none := by
  have e1 : extractFrom ((pre ++ marker10) ++ (body ++ (63 :: 61 :: tail))) none =
      extractFrom (marker10 ++ (body ++ (63 :: 61 :: tail))) none := by
    rcases hpre with rfl | rfl
    · simp
    · rw [show (([32] ++ marker10) ++ (body ++ (63 :: 61 :: tail)) : Str) =
        32 :: (marker10 ++ (body ++ (63 :: 61 :: tail))) from by simp]
      exact ef_skip32 _
  rw [e1, ef_marker, ef_bodyRun body _ [] hb, List.nil_append, ef_close]

theorem escLoop_roundtrip : ∀ (rest curBs : List Nat) (pre : Str),
    (pre = [] ∨ pre = [32]) →
    (∀ b ∈ rest, b < 256) → (∀ b ∈ curBs, b < 256) →
    ((extractFrom (escChunkLoop rest [] ((pre ++ marker10) ++ qEnc curBs))
      none).map decodeQ).flatten = curBs ++ rest
  | [], curBs, pre, hpre, _, hcur => by
    have e1 : escChunkLoop [] []
        ((pre ++ marker10) ++ qEnc curBs) =
        (pre ++ marker10) ++ (qEnc curBs ++ (63 :: 61 :: ([] : Str))) := by
      simp [escChunkLoop, close2]
    rw [e1, ef_encodedWord pre hpre _ _ (qEnc_no63 curBs)]
    have e2 : extractFrom [] none = [] := rfl
    rw [e2]
    simp [decodeE curBs hcur]
  | b :: rest, curBs, pre, hpre, h256, hcur => by
    have hb : b < 256 := h256 b (by simp)
    have hrest : ∀ x ∈ rest, x < 256 := fun x hx => h256 x (by simp [hx])
    simp only [escChunkLoop]
    by_cases hc : ((pre ++ marker10) ++ qEnc curBs).length + 5 > lineShouldLength
    · simp only [if_pos hc]
      rw [escChunkLoop_flat rest _ _]
      have e3 : ((32 :: marker10) ++ encByte b : Str) =
          ([32] ++ marker10) ++ qEnc [b] := by
        simp [qEnc]
      rw [e3]
      have e4 : ([] : Str) ++ ((pre ++ marker10) ++ qEnc curBs) ++ close2 ++ crlf
          ++ escChunkLoop rest [] (([32] ++ marker10) ++ qEnc [b]) =
          (pre ++ marker10) ++ (qEnc curBs ++ (63 :: 61 :: (13 :: 10 ::
            escChunkLoop rest [] (([32] ++ marker10) ++ qEnc [b])))) := by
        simp [close2, crlf]
      rw [e4, ef_encodedWord pre hpre _ _ (qEnc_no63 curBs),
        ef_skip13, ef_skip10]
      have ih := escLoop_roundtrip rest [b] [32] (Or.inr rfl) hrest
        (by intro x hx; simp at hx; subst hx; exact hb)
      simp only [List.map_cons, List.flatten_cons]
      rw [ih, decodeE curBs hcur]
      simp
    · simp only [if_neg hc]
      have e5 : ((pre ++ marker10) ++ qEnc curBs) ++ encByte b =
          (pre ++ marker10) ++ qEnc (curBs ++ [b]) := by
        rw [qEnc_snoc]
        simp
      rw [e5, escLoop_roundtrip rest (curBs ++ [b]) pre hpre hrest
        (by intro x hx; rcases List.mem_append.mp hx with h | h
            · exact hcur x h
            · simp at h; subst h; exact hb)]
      simp

theorem escapeWord_roundtrip (w : Str) (h256 : ∀ b ∈ w, b < 256)
    (hesc : ¬ w.all (fun b => 32 ≤ b && b ≤ 126)) :
    ((extractBodies (escapeWord w)).map decodeQ).flatten = w := by
  unfold escapeWord extractBodies
  rw [if_neg (by simpa using hesc)]
  rw [show (marker10 : Str) = (([] : Str) ++ marker10) ++ qEnc [] from by
    simp [qEnc]]
  rw [escLoop_roundtrip w [] [] (Or.inl rfl) h256 (by simp)]
  simp


theorem splitAfterSpace_ne_nil : ∀ (v : Str), splitAfterSpace v ≠ []
  | [] => by simp [splitAfterSpace]
  | b :: rest => by
    simp only [splitAfterSpace]
    by_cases hb : b = 32
    · simp [hb]
    · simp only [if_neg hb]
      split <;> simp

theorem splitAfterSpace_flatten : ∀ (v : Str), (splitAfterSpace v).flatten = v
  | [] => rfl
  | b :: rest => by
    simp only [splitAfterSpace]
    by_cases hb : b = 32
    · simp only [if_pos hb, List.flatten_cons]
      rw [splitAfterSpace_flatten rest, hb]
      rfl
    · simp only [if_neg hb]
      have hf := splitAfterSpace_flatten rest
      rcases hsp : splitAfterSpace rest with _ | ⟨w, ws⟩
      · exact absurd hsp (splitAfterSpace_ne_nil rest)
      · rw [hsp, List.flatten_cons] at hf
        simp only [List.flatten_cons, List.cons_append, hf]

theorem splitAfterSpace_mem : ∀ (v : Str) (w : Str) (b : Nat),
    w ∈ splitAfterSpace v → b ∈ w → b ∈ v
  | [], w, b, hw, hb => by
    simp [splitAfterSpace] at hw
    subst hw
    simp at hb
  | x :: rest, w, b, hw, hb => by
    simp only [splitAfterSpace] at hw
    by_cases hx : x = 32
    · rw [if_pos hx] at hw
      rcases List.mem_cons.mp hw with rfl | hw2
      · simp at hb
        subst hb
        simp [hx]
      · exact List.mem_cons_of_mem x (splitAfterSpace_mem rest w b hw2 hb)
    · rw [if_neg hx] at hw
      rcases hsp : splitAfterSpace rest with _ | ⟨w0, ws⟩
      · exact absurd hsp (splitAfterSpace_ne_nil rest)
      · rw [hsp] at hw
        rcases List.mem_cons.mp hw with rfl | hw
        · rcases List.mem_cons.mp hb with rfl | hb
          · simp
          · exact List.mem_cons_of_mem x
              (splitAfterSpace_mem rest w0 b (by rw [hsp]; simp) hb)
        · exact List.mem_cons_of_mem x
            (splitAfterSpace_mem rest w b (by rw [hsp]; simp [hw]) hb)

/-- C6 (amended): for every header value, decoding (underscore to
space, `=XX` to the byte XX, other bytes unchanged) every encoded word
emitted by the header encoder for each word of the value that contains a
byte outside printable ASCII, and concatenating the results together
with the plain printable-ASCII words, which are emitted unmodified, in
emission order, recovers the original UTF-8 bytes of the value
exactly. -/
theorem header_roundtrip (value : Str) (h256 : ∀ b ∈ value, b < 256) :
    ((splitAfterSpace value).map (fun w =>
      if w.all (fun b => 32 ≤ b && b ≤ 126) then w
      else ((extractBodies (escapeWord w)).map decodeQ).flatten)).flatten =
    value := by
  have hmap : ∀ w ∈ splitAfterSpace value,
      (if w.all (fun b => 32 ≤ b && b ≤ 126) then w
       else ((extractBodies (escapeWord w)).map decodeQ).flatten) = w := by
    intro w hw
    by_cases hall : w.all (fun b => 32 ≤ b && b ≤ 126)
    · rw [if_pos hall]
    · rw [if_neg hall]
      exact escapeWord_roundtrip w
        (fun b hb => h256 b (splitAfterSpace_mem value w b hw hb)) hall
  rw [List.map_congr_left hmap]
  simpa using splitAfterSpace_flatten value


/-- C6 (counterexample): for the Subject value `a \xe6\xb5\x8b` (an
ASCII word then a non-ASCII word), decoding every encoded word of the
emitted header and concatenating yields only the non-ASCII word: the
plain ASCII word `a ` is emitted outside any encoded word, so the
original value is not recovered from the encoded words alone. -/
theorem header_roundtrip_counterexample :
    ((extractBodies (writeEscapeHeader (asc "Subject")
        [97, 32, 230, 181, 139])).map decodeQ).flatten ≠
      [97, 32, 230, 181, 139] ∧
    ((extractBodies (writeEscapeHeader (asc "Subject")
        [97, 32, 230, 181, 139])).map decodeQ).flatten = [230, 181, 139] := by
  decide

/-- Witness for C6 at the value `a \xe6\xb5\x8b`. -/
theorem header_roundtrip_witness :
    (∀ b ∈ ([97, 32, 230, 181, 139] : Str), b < 256) ∧
    ((splitAfterSpace [97, 32, 230, 181, 139]).map (fun w =>
      if w.all (fun b => 32 ≤ b && b ≤ 126) then w
      else ((extractBodies (escapeWord w)).map decodeQ).flatten)).flatten =
    [97, 32, 230, 181, 139] :=
  ⟨by decide, header_roundtrip [97, 32, 230, 181, 139] (by decide)⟩

end WedogoEmail
